import Mathlib

/-!
Verification development for the `ThreadPool` component of this repository
(`thread_pool.h` / `thread_pool.cpp`).  The pool operations are embedded
shallowly: the body of each C++ member function is translated into a Lean
function on the relevant shared state, and the concurrent execution of the
pool together with its worker threads and clients is an interleaving
small-step relation over a global state record.  Tasks are identified by
`Nat` ids assigned in submission order; the user-visible effect of a task is
a function of a shared counter, and the outcome a task stores in the shared
state of its `std::packaged_task` is either a value or a captured failure.
-/

namespace ThreadPool

/-- Outcome stored in the shared state of a submitted task
(`std::packaged_task` / `std::future` pair): either a produced value or the
failure (exception) captured while the user callable ran.  Values are
modelled as `Nat` and failures by their message. -/
inductive Outcome where
  | value : Nat → Outcome
  | failure : String → Outcome
deriving DecidableEq

/-- Body of `ThreadPool::enqueue` (thread_pool.h, lines 25-32), restricted to
its effect on the shared state: under the lock, if `stop_` is set it throws
`std::runtime_error("ThreadPool is stopping")` and the queue is left
untouched; otherwise the wrapped task is appended at the back of `tasks_`.
The result is the raised error or `()` together with the queue after the
call returns. -/
def enqueue (stop_ : Bool) (tasks_ : List Nat) (t : Nat) :
    Except String Unit × List Nat :=
  if stop_ then (Except.error "ThreadPool is stopping", tasks_)
  else (Except.ok (), tasks_ ++ [t])

/-- Result of the locked section of one `ThreadPool::workerLoop` iteration:
either the worker returned from the loop (carrying the queue it left
behind), or the loop continues with the task it popped, if any, and the
remaining queue. -/
inductive IterResult where
  | terminated : List Nat → IterResult
  | next : Option Nat → List Nat → IterResult
deriving DecidableEq

/-- The locked section of one iteration of `ThreadPool::workerLoop`
(thread_pool.cpp, lines 29-41), taking as input the values of `stop_` and
`tasks_` the worker observes once it holds the lock after the optional
`cv_.wait`.  The code first returns if `stop_` is set — without looking at
the queue — and only otherwise pops the front task when the queue is
non-empty. -/
def workerIter (stop_ : Bool) (tasks_ : List Nat) : IterResult :=
  if stop_ then IterResult.terminated tasks_
  else
    match tasks_ with
    | [] => IterResult.next none []
    | t :: rest => IterResult.next (some t) rest

/-- Lines 43-44 of thread_pool.cpp: `if (task) { task(); }` — the number of
invocations of the local `task` object performed after the lock is released,
given the task popped this iteration (`none` when the local `std::function`
is still empty). -/
def invocationsOf (task : Option Nat) : Nat :=
  match task with
  | some _ => 1
  | none => 0

/-- The `std::future` handle returned by `enqueue`: `ready` is the content of
the shared state of the associated `std::packaged_task` (`none` while the
task has not yet run) and `valid` records whether the future still refers to
that shared state — `std::future::get` releases the state, after which
`valid()` is `false`. -/
structure FutureState where
  ready : Option Outcome
  valid : Bool
deriving DecidableEq

/-- Possible results of one call to `std::future::get` (the wait operation of
a Handle): the stored value, the re-raised stored exception, a
`std::future_error` when the future no longer has a shared state, or
blocking because the state is not ready yet. -/
inductive WaitResult where
  | value : Nat → WaitResult
  | raised : String → WaitResult
  | futureError : WaitResult
  | blocked : WaitResult
deriving DecidableEq

/-- One call to `std::future::get`, per the C++ standard semantics of the
future returned by `ThreadPool::enqueue` (thread_pool.h, line 33): on a
future whose shared state was already released by a previous `get` the call
does not repeat the outcome (mainstream implementations raise
`std::future_error` with `no_state`; the standard makes the call invalid);
on a valid future it blocks until the state is ready, then returns the
stored value or re-raises the stored exception, releasing the shared state
so that the future becomes invalid. -/
def wait (f : FutureState) : WaitResult × FutureState :=
  if f.valid then
    match f.ready with
    | none => (WaitResult.blocked, f)
    | some (Outcome.value v) => (WaitResult.value v, ⟨f.ready, false⟩)
    | some (Outcome.failure e) => (WaitResult.raised e, ⟨f.ready, false⟩)
  else (WaitResult.futureError, f)

/-- The individual statements of `ThreadPool::~ThreadPool`
(thread_pool.cpp, lines 12-20).  `join` does not occur in the destructor
body; the constructor is included so that its absence can be stated. -/
inductive DtorAction where
  | setStop
  | notifyAll
  | detach : Nat → DtorAction
  | join : Nat → DtorAction
deriving DecidableEq

/-- Whether a destructor action is a `join` of some worker. -/
def DtorAction.isJoin : DtorAction → Bool
  | DtorAction.join _ => true
  | _ => false

/-- `ThreadPool::~ThreadPool` (thread_pool.cpp, lines 12-20) as the sequence
of actions it performs on a pool whose `n` workers are all joinable:
`stop_ = true;`, `cv_.notify_all();`, then `worker.detach();` for each
worker in order.  No worker is joined, so the destructor returns without
waiting for any worker to terminate. -/
def destructorTrace (n : Nat) : List DtorAction :=
  DtorAction.setStop :: DtorAction.notifyAll ::
    (List.range n).map DtorAction.detach

/-- The two pieces of pool state shared across threads and guarded by
`mutex_` (also the predicate state of `cv_`): the task queue `tasks_` and
the flag `stop_`. -/
inductive SharedVar where
  | tasksQueue
  | stopFlag
deriving DecidableEq

/-- One access to shared pool state at some program point, recording whether
the access is a write and whether `mutex_` is held there. -/
structure Access where
  var : SharedVar
  isWrite : Bool
  underLock : Bool
deriving DecidableEq

/-- Shared-state accesses performed by `ThreadPool::enqueue`
(thread_pool.h, lines 25-31): inside the `unique_lock` block it reads
`stop_` and, when not stopping, writes `tasks_` (the `emplace`). -/
def enqueueAccesses : List Access :=
  [⟨SharedVar.stopFlag, false, true⟩, ⟨SharedVar.tasksQueue, true, true⟩]

/-- Shared-state accesses performed by one iteration of
`ThreadPool::workerLoop` (thread_pool.cpp, lines 29-41), all inside the
`unique_lock` block: reading `tasks_.empty()`, reading `stop_`, reading
`tasks_.front()` and popping `tasks_`. -/
def workerLoopAccesses : List Access :=
  [⟨SharedVar.tasksQueue, false, true⟩, ⟨SharedVar.stopFlag, false, true⟩,
   ⟨SharedVar.tasksQueue, false, true⟩, ⟨SharedVar.tasksQueue, true, true⟩]

/-- Shared-state accesses performed by `ThreadPool::~ThreadPool`
(thread_pool.cpp, lines 12-20): the write `stop_ = true;` on line 13 is
executed without acquiring `mutex_`. -/
def destructorAccesses : List Access :=
  [⟨SharedVar.stopFlag, true, false⟩]

/-- The private state of one worker thread: the local `task` it has popped
but not yet run (`held`), and whether its `workerLoop` has returned
(`term`). -/
structure WorkerS where
  held : Option Nat
  term : Bool
deriving DecidableEq

/-- Behaviour of the submitted callables: given a task id and the current
value of a shared user counter, the counter after the callable runs and the
outcome its `std::packaged_task` stores (the produced value, or the failure
it captured). -/
def Beh := Nat → Nat → Nat × Outcome

/-- Global state of the pool together with its clients: the data members of
`ThreadPool` (`tasks_`, `stop_`, `workers_`), a shared user counter touched
by the task callables, the shared state of the `std::packaged_task` of every
submitted task (indexed by task id, `none` until the task runs), and two
histories used to state ordering properties — the ids popped from `tasks_`
in pop order, and the ids whose callables have been invoked, in invocation
order.  `nextId` is the id the next successful `enqueue` assigns: ids are
assigned in submission order. -/
structure SystemState where
  tasks_ : List Nat
  stop_ : Bool
  workers_ : List WorkerS
  counter : Nat
  channels : Nat → Option Outcome
  popped : List Nat
  executed : List Nat
  nextId : Nat

/-- `ThreadPool::ThreadPool` (thread_pool.cpp, lines 3-10): a requested
`threadCount` of `0` is coerced to `1`, then exactly that many workers are
spawned, each starting `workerLoop` with no task held; the queue starts
empty and `stop_` false. -/
def init (threadCount : Nat) : SystemState :=
  { tasks_ := []
    stop_ := false
    workers_ := List.replicate (if threadCount = 0 then 1 else threadCount) ⟨none, false⟩
    counter := 0
    channels := fun _ => none
    popped := []
    executed := []
    nextId := 0 }

/-- `ThreadPool::size` (thread_pool.cpp, lines 22-24): the length of
`workers_`. -/
def size (s : SystemState) : Nat := s.workers_.length

/-- Worker `w` runs its popped task `t` outside the lock (thread_pool.cpp,
lines 43-44).  The local `task` wraps `(*task)()` on a
`std::packaged_task`, whose invocation runs the user callable and stores
the outcome in the shared state, capturing any exception the callable
throws — nothing propagates into `workerLoop`, and the worker returns to
the top of its loop holding no task. -/
def execStep (beh : Beh) (s : SystemState) (w t : Nat) : SystemState :=
  { s with
    counter := (beh t s.counter).1
    channels := fun u => if u = t then some (beh t s.counter).2 else s.channels u
    executed := s.executed ++ [t]
    workers_ := s.workers_.set w ⟨none, false⟩ }

/-- One interleaved step of the system: a client submitting, a worker
running the locked section of one loop iteration, a worker invoking the
task it popped, a worker returning from its loop, or the destructor
statement `stop_ = true;` (thread_pool.cpp, line 13). -/
inductive Step (beh : Beh) : SystemState → SystemState → Prop where
  /-- A client thread calls `enqueue` and it returns normally: the task was
  appended to `tasks_` and a fresh id consumed. -/
  | submit {s : SystemState} {q : List Nat} :
      enqueue s.stop_ s.tasks_ s.nextId = (Except.ok (), q) →
      Step beh s { s with tasks_ := q, nextId := s.nextId + 1 }
  /-- A client thread calls `enqueue` and it throws: no shared state
  changes. -/
  | reject {s : SystemState} {e : String} :
      (enqueue s.stop_ s.tasks_ s.nextId).1 = Except.error e →
      Step beh s s
  /-- A worker at the top of its loop reacquires the lock (after a wait or
  not — spurious wakeups included) and runs one locked iteration that does
  not return: it pops the front task or, on an empty queue, pops nothing. -/
  | iter {s : SystemState} {w : Nat} {o : Option Nat} {q : List Nat} :
      s.workers_[w]? = some ⟨none, false⟩ →
      workerIter s.stop_ s.tasks_ = IterResult.next o q →
      Step beh s { s with tasks_ := q
                          popped := s.popped ++ o.toList
                          workers_ := s.workers_.set w ⟨o, false⟩ }
  /-- A worker at the top of its loop observes `stop_` set and returns from
  `workerLoop`. -/
  | exit {s : SystemState} {w : Nat} {q : List Nat} :
      s.workers_[w]? = some ⟨none, false⟩ →
      workerIter s.stop_ s.tasks_ = IterResult.terminated q →
      Step beh s { s with tasks_ := q
                          workers_ := s.workers_.set w ⟨none, true⟩ }
  /-- A worker invokes the task it holds, outside the lock. -/
  | exec {s : SystemState} {w t : Nat} :
      s.workers_[w]? = some ⟨some t, false⟩ →
      Step beh s (execStep beh s w t)
  /-- The destructor begins: `stop_ = true;` (thread_pool.cpp, line 13). -/
  | setStop {s : SystemState} :
      Step beh s { s with stop_ := true }

/-- States reachable from a freshly constructed pool by any interleaving of
client and worker steps. -/
inductive Reach (beh : Beh) (threadCount : Nat) : SystemState → Prop where
  | refl : Reach beh threadCount (init threadCount)
  | tail {s s2 : SystemState} :
      Reach beh threadCount s → Step beh s s2 → Reach beh threadCount s2

/-- The behaviour used by the counting properties: every task increments the
shared counter exactly once when invoked and succeeds. -/
def incBeh : Beh := fun _ c => (c + 1, Outcome.value 0)

/-- A behaviour with a task whose callable throws: used to instantiate the
failure-propagation property. -/
def failBeh : Beh := fun _ c => (c, Outcome.failure "boom")

/-- Concrete run used to instantiate the reachability properties: the state
of a one-worker pool after a client submitted task `0`. -/
def demoA : SystemState := { init 1 with tasks_ := [0], nextId := 1 }

/-- The demo run after the worker popped task `0`. -/
def demoB : SystemState :=
  { demoA with tasks_ := [], popped := [0], workers_ := [⟨some 0, false⟩] }

/-- The demo run after the worker invoked task `0`. -/
def demoC : SystemState := execStep incBeh demoB 0 0

/-- The demo run after a second submission, task `1`. -/
def demoD : SystemState := { demoC with tasks_ := [1], nextId := 2 }

/-- The demo run after the worker popped task `1`. -/
def demoE : SystemState :=
  { demoD with tasks_ := [], popped := [0, 1], workers_ := [⟨some 1, false⟩] }

/-- A state of a one-worker pool whose worker holds task `0`, used with
`failBeh` to instantiate the failure-propagation property. -/
def sFail : SystemState := { init 1 with workers_ := [⟨some 0, false⟩] }

/-- The ids of the tasks currently popped from the queue but not yet run:
the held tasks of the workers. -/
def helds : List WorkerS → List Nat
  | [] => []
  | wkr :: l => wkr.held.toList ++ helds l

/-- Shuffling the first two blocks of a three-block concatenation is a
permutation. -/
theorem perm_shuffle (x y z : List Nat) :
    List.Perm (x ++ (y ++ z)) (y ++ (x ++ z)) := by
  rw [(List.append_assoc x y z).symm, (List.append_assoc y x z).symm]
  exact List.perm_append_comm.append_right z

/-- Replacing the entry at index `w` changes the held-task multiset by
removing the old held task and adding the new one. -/
theorem helds_set (l : List WorkerS) (w : Nat) (a b : WorkerS)
    (h : l[w]? = some b) :
    List.Perm (b.held.toList ++ helds (l.set w a))
      (a.held.toList ++ helds l) := by
  induction l generalizing w with
  | nil => simp at h
  | cons c rest ih =>
    cases w with
    | zero =>
      simp only [List.getElem?_cons_zero, Option.some.injEq] at h
      subst h
      simp only [List.set_cons_zero, helds]
      exact perm_shuffle _ _ _
    | succ w =>
      simp only [List.getElem?_cons_succ] at h
      simp only [List.set_cons_succ, helds]
      exact (perm_shuffle _ _ _).trans
        ((List.Perm.append_left _ (ih w h)).trans (perm_shuffle _ _ _))

/-- Invariant of every reachable system state: the pop history followed by
the queue is exactly the submission order (ids `0, 1, ...`); a task is
popped exactly when it was invoked or is held by some worker; a channel is
written exactly when its task was invoked. -/
structure Inv (s : SystemState) : Prop where
  fifo : s.popped ++ s.tasks_ = List.range s.nextId
  perm : List.Perm (s.executed ++ helds s.workers_) s.popped
  chan : ∀ t, (s.channels t).isSome = true ↔ t ∈ s.executed

/-- The invariant holds in a freshly constructed pool. -/
theorem inv_init (n : Nat) : Inv (init n) := by
  have hrep : ∀ k, helds (List.replicate k (⟨none, false⟩ : WorkerS)) = [] := by
    intro k
    induction k with
    | zero => rfl
    | succ k ih => simp [List.replicate_succ, helds, ih]
  refine ⟨by simp [init], ?_, by intro t; simp [init]⟩
  simp [init, hrep]

/-- The invariant is preserved by every interleaved step. -/
theorem inv_step {beh : Beh} {s s2 : SystemState} (hs : Inv s)
    (st : Step beh s s2) : Inv s2 := by
  obtain ⟨fifo, perm, chan⟩ := hs
  cases st with
  | submit h =>
    cases hb : s.stop_ with
    | true => simp [enqueue, hb] at h
    | false =>
      simp only [enqueue, hb, Bool.false_eq_true, if_false, Prod.mk.injEq,
        true_and] at h
      subst h
      exact ⟨by rw [← List.append_assoc, fifo, List.range_succ], perm, chan⟩
  | reject h => exact ⟨fifo, perm, chan⟩
  | iter hw hit =>
    rename_i w o q
    cases hb : s.stop_ with
    | true => simp [workerIter, hb] at hit
    | false =>
      cases hq : s.tasks_ with
      | nil =>
        simp only [workerIter, hb, hq, Bool.false_eq_true, if_false,
          IterResult.next.injEq] at hit
        obtain ⟨ho, hql⟩ := hit
        subst ho; subst hql
        refine ⟨?_, ?_, chan⟩
        · rw [hq] at fifo
          simpa using fifo
        · have h1 := helds_set s.workers_ w ⟨none, false⟩ ⟨none, false⟩ hw
          simp only [Option.toList_none, List.nil_append] at h1
          simpa using (List.Perm.append_left s.executed h1).trans perm
      | cons t rest =>
        simp only [workerIter, hb, hq, Bool.false_eq_true, if_false,
          IterResult.next.injEq] at hit
        obtain ⟨ho, hql⟩ := hit
        subst ho; subst hql
        refine ⟨?_, ?_, chan⟩
        · rw [List.append_assoc]
          simpa [hq] using fifo
        · have h1 := helds_set s.workers_ w ⟨some t, false⟩ ⟨none, false⟩ hw
          simp only [Option.toList_none, Option.toList_some,
            List.nil_append, List.singleton_append] at h1
          refine (List.Perm.append_left s.executed h1).trans ?_
          exact (perm_shuffle s.executed [t] (helds s.workers_)).trans
            ((List.Perm.append_left [t] perm).trans List.perm_append_comm)
  | exit hw hit =>
    rename_i w q
    cases hb : s.stop_ with
    | false =>
      cases hq : s.tasks_ <;>
        simp [workerIter, hb, hq] at hit
    | true =>
      simp only [workerIter, hb, if_true, IterResult.terminated.injEq] at hit
      subst hit
      refine ⟨fifo, ?_, chan⟩
      have h1 := helds_set s.workers_ w ⟨none, true⟩ ⟨none, false⟩ hw
      simp only [Option.toList_none, List.nil_append] at h1
      exact (List.Perm.append_left s.executed h1).trans perm
  | exec hw =>
    rename_i w t
    refine ⟨fifo, ?_, ?_⟩
    · have h1 := helds_set s.workers_ w ⟨none, false⟩ ⟨some t, false⟩ hw
      simp only [Option.toList_none, Option.toList_some,
        List.nil_append, List.singleton_append] at h1
      show ((s.executed ++ [t]) ++ helds (s.workers_.set w ⟨none, false⟩)).Perm s.popped
      rw [List.append_assoc]
      exact (List.Perm.append_left s.executed h1).trans perm
    · intro u
      show (if u = t then some (beh t s.counter).2 else s.channels u).isSome = true
          ↔ u ∈ s.executed ++ [t]
      by_cases hu : u = t
      · subst hu
        simp
      · simp [hu, chan u]
  | setStop => exact ⟨fifo, perm, chan⟩

/-- Every reachable state satisfies the invariant. -/
theorem inv_reach {beh : Beh} {n : Nat} {s : SystemState}
    (h : Reach beh n s) : Inv s := by
  induction h with
  | refl => exact inv_init n
  | tail _ st ih => exact inv_step ih st

/-- Under the incrementing behaviour, the shared counter equals the number
of task invocations performed so far. -/
theorem counter_eq_executed {n : Nat} {s : SystemState}
    (h : Reach incBeh n s) : s.counter = s.executed.length := by
  induction h with
  | refl => rfl
  | tail _ st ih =>
    cases st with
    | submit h2 => exact ih
    | reject h2 => exact ih
    | iter h2 h3 => exact ih
    | exit h2 h3 => exact ih
    | exec h2 => simp [execStep, incBeh, ih]
    | setStop => exact ih

/-- The worker collection never changes size after construction. -/
theorem size_reach {beh : Beh} {n : Nat} {s : SystemState}
    (h : Reach beh n s) : size s = (if n = 0 then 1 else n) := by
  induction h with
  | refl => simp [size, init]
  | tail _ st ih =>
    cases st with
    | submit h2 => exact ih
    | reject h2 => exact ih
    | iter h2 h3 => simpa [size] using ih
    | exit h2 h3 => simpa [size] using ih
    | exec h2 => simpa [size, execStep] using ih
    | setStop => exact ih

/-- Claim C1 (code evidence): `ThreadPool::~ThreadPool` detaches every worker
and joins none of them, so the destructor returns without waiting for any
worker to finish its current task — contrary to the specified
join-before-return destruction contract and to the repository test that
asserts the destructor waits for a running task. -/
theorem destructor_detaches_never_joins (n i : Nat) (h : i < n) :
    DtorAction.detach i ∈ destructorTrace n
    ∧ ((destructorTrace n).all fun a => ! a.isJoin) = true := by
  constructor
  · simp only [destructorTrace, List.mem_cons, List.mem_map, List.mem_range]
    exact Or.inr (Or.inr ⟨i, h, rfl⟩)
  · simp only [destructorTrace, List.all_cons, Bool.and_eq_true,
      List.all_eq_true]
    refine ⟨rfl, rfl, ?_⟩
    intro a ha
    obtain ⟨b, hb, rfl⟩ := List.mem_map.mp ha
    rfl

/-- Witness for C1 on a pool of two workers: worker `0` is detached and no
worker is joined. -/
theorem destructor_detaches_never_joins_witness :
    DtorAction.detach 0 ∈ destructorTrace 2
    ∧ ((destructorTrace 2).all fun a => ! a.isJoin) = true :=
  destructor_detaches_never_joins 2 0 (by decide)

/-- Claim C2 counterexample: with the stopping flag set and task `7` still
queued, the locked section of a worker iteration returns from the loop at
once — the worker reaches Terminated while the queue is non-empty, so the
queued task is not drained. -/
theorem worker_terminates_with_nonempty_queue :
    workerIter true [7] = IterResult.terminated [7]
    ∧ ([7] : List Nat) ≠ [] :=
  ⟨rfl, by decide⟩

/-- Claim C2 amended: a worker exits its loop exactly when it observes the
stopping flag true after (at most one) wait, regardless of whether the queue
is empty; on exit the queue is left exactly as it was, so tasks still queued
when stop is observed are not dequeued or executed by that worker. -/
theorem worker_exit_iff_stop (b : Bool) (q : List Nat) :
    workerIter b q = IterResult.terminated q ↔ b = true := by
  cases b with
  | true => simp [workerIter]
  | false => cases q <;> simp [workerIter]

/-- Claim C3: every submitted task is executed exactly once — with every
task incrementing the shared counter exactly once when invoked, in any
reachable state in which every submitted task's handle wait has returned
(its channel is written, so `wait` does not block), the counter equals the
number of submitted tasks, and the invocation history has no duplicates. -/
theorem tasks_executed_exactly_once (n : Nat) (s : SystemState)
    (h : Reach incBeh n s)
    (hdone : ∀ t, t < s.nextId →
      (wait ⟨s.channels t, true⟩).1 ≠ WaitResult.blocked) :
    s.counter = s.nextId ∧ s.executed.Nodup := by
  obtain ⟨fifo, perm, chan⟩ := inv_reach h
  have hc := counter_eq_executed h
  have hpopped_sub : ∀ t ∈ s.popped, t < s.nextId := by
    intro t ht
    have : t ∈ List.range s.nextId :=
      fifo ▸ List.mem_append.mpr (Or.inl ht)
    exact List.mem_range.mp this
  have hexec_sub : s.executed ⊆ List.range s.nextId := by
    intro t ht
    exact List.mem_range.mpr
      (hpopped_sub t (perm.subset (List.mem_append.mpr (Or.inl ht))))
  have hsup : List.range s.nextId ⊆ s.executed := by
    intro t ht
    have htlt := List.mem_range.mp ht
    have hne := hdone t htlt
    cases hch : s.channels t with
    | none => exact absurd (by simp [wait, hch]) hne
    | some o => exact (chan t).mp (by simp [hch])
  have hpn : s.popped.Nodup := by
    have : (s.popped ++ s.tasks_).Nodup := fifo ▸ List.nodup_range s.nextId
    exact this.of_append_left
  have hen : s.executed.Nodup := (perm.nodup_iff.mpr hpn).of_append_left
  refine ⟨?_, hen⟩
  have h1 : s.executed.length ≤ s.nextId := by
    have := (List.subperm_of_subset hen hexec_sub).length_le
    simpa using this
  have h2 : s.nextId ≤ s.executed.length := by
    have := (List.subperm_of_subset (List.nodup_range s.nextId) hsup).length_le
    simpa using this
  rw [hc]
  omega

/-- Witness for C3: the demo run submits one incrementing task, the worker
pops and runs it; its channel is then written, and the counter equals the
submission count `1`. -/
theorem tasks_executed_exactly_once_witness :
    demoC.counter = demoC.nextId ∧ demoC.executed.Nodup := by
  have h0 : Reach incBeh 1 demoA :=
    Reach.tail Reach.refl (Step.submit (q := [0]) rfl)
  have h1 : Reach incBeh 1 demoB :=
    Reach.tail h0 (Step.iter (w := 0) (o := some 0) (q := []) rfl rfl)
  have h2 : Reach incBeh 1 demoC :=
    Reach.tail h1 (Step.exec (w := 0) (t := 0) rfl)
  exact tasks_executed_exactly_once 1 demoC h2 (by decide)

/-- Claim C4: `enqueue` raises "ThreadPool is stopping" iff the stopping
flag is set at submission time, and on that path the queue is unchanged;
otherwise the task is appended at the back, growing the queue by one. -/
theorem enqueue_reject_iff (b : Bool) (q : List Nat) (t : Nat) :
    (enqueue b q t = (Except.error "ThreadPool is stopping", q) ↔ b = true)
    ∧ (enqueue b q t = (Except.ok (), q ++ [t]) ↔ b = false)
    ∧ (enqueue false q t).2.length = q.length + 1 := by
  cases b <;> simp [enqueue]

/-- Claim C5: construction with requested count `K > 0` spawns exactly `K`
workers and `size` returns `K`; a requested count of `0` is coerced to one
worker; and `size` is the same in every reachable state of the pool. -/
theorem size_spec (beh : Beh) (n : Nat) (s : SystemState)
    (h : Reach beh n s) :
    (0 < n → size s = n) ∧ (n = 0 → size s = 1) := by
  have hs := size_reach h
  constructor
  · intro hn
    rw [hs, if_neg (Nat.pos_iff_ne_zero.mp hn)]
  · intro hn
    rw [hs, if_pos hn]

/-- Witness for C5: a pool constructed with 4 threads has size 4, and one
constructed with 0 threads has size 1. -/
theorem size_spec_witness : size (init 4) = 4 ∧ size (init 0) = 1 :=
  ⟨(size_spec incBeh 4 (init 4) Reach.refl).1 (by decide),
   (size_spec incBeh 0 (init 0) Reach.refl).2 rfl⟩

/-- Claim C6: the queue is globally FIFO — ids are assigned in submission
order and, in every reachable state, the pop history lists each dequeued
task at exactly its submission position; hence if `a` was enqueued before
`b` and `b` has been dequeued, `a` was dequeued before `b`. -/
theorem dequeue_order_matches_enqueue_order (beh : Beh) (n : Nat)
    (s : SystemState) (h : Reach beh n s) (a b : Nat) (hab : a < b)
    (hb : b ∈ s.popped) :
    a ∈ s.popped ∧ s.popped[a]? = some a ∧ s.popped[b]? = some b := by
  have fifo := (inv_reach h).fifo
  have key : ∀ i, i < s.popped.length → s.popped[i]? = some i := by
    intro i hi
    have h1 : (s.popped ++ s.tasks_)[i]? = s.popped[i]? :=
      List.getElem?_append_left hi
    have h2 : i < s.nextId := by
      have hlen := congrArg List.length fifo
      simp only [List.length_append, List.length_range] at hlen
      omega
    rw [fifo] at h1
    rw [← h1]
    exact List.getElem?_range h2
  obtain ⟨j, hjl, hjv⟩ := List.getElem_of_mem hb
  have hjq : s.popped[j]? = some b := List.getElem?_eq_some.mpr ⟨hjl, hjv⟩
  rw [key j hjl] at hjq
  have hjb : j = b := Option.some.inj hjq
  have hblt : b < s.popped.length := hjb ▸ hjl
  have halt : a < s.popped.length := Nat.lt_trans hab hblt
  exact ⟨List.getElem?_mem (key a halt), key a halt, key b hblt⟩

/-- Witness for C6: in the demo run both submitted tasks are popped, in
submission order — task `0` at position 0, task `1` at position 1. -/
theorem dequeue_order_matches_enqueue_order_witness :
    0 ∈ demoE.popped ∧ demoE.popped[0]? = some 0
    ∧ demoE.popped[1]? = some 1 := by
  have h0 : Reach incBeh 1 demoA :=
    Reach.tail Reach.refl (Step.submit (q := [0]) rfl)
  have h1 : Reach incBeh 1 demoB :=
    Reach.tail h0 (Step.iter (w := 0) (o := some 0) (q := []) rfl rfl)
  have h2 : Reach incBeh 1 demoC :=
    Reach.tail h1 (Step.exec (w := 0) (t := 0) rfl)
  have h3 : Reach incBeh 1 demoD :=
    Reach.tail h2 (Step.submit (q := [1]) rfl)
  have h4 : Reach incBeh 1 demoE :=
    Reach.tail h3 (Step.iter (w := 0) (o := some 1) (q := []) rfl rfl)
  exact dequeue_order_matches_enqueue_order incBeh 1 demoE h4 0 1
    (by decide) (by decide)

/-- Claim C7 counterexample: on a ready future holding value 42, the first
wait returns the value, but a second call on the resulting handle state
yields a future error instead of the cached outcome — wait is not an
idempotent repeatable read. -/
theorem wait_second_call_fails :
    (wait ⟨some (Outcome.value 42), true⟩).1 = WaitResult.value 42
    ∧ (wait (wait ⟨some (Outcome.value 42), true⟩).2).1
        = WaitResult.futureError
    ∧ (wait (wait ⟨some (Outcome.value 42), true⟩).2).1
        ≠ WaitResult.value 42 :=
  ⟨rfl, rfl, by decide⟩

/-- Claim C7 amended: the handle is single-shot — on a valid future whose
outcome is ready, the first wait returns the stored value or re-raises the
stored failure and invalidates the future, and any further call fails with
a future error rather than repeating the cached outcome. -/
theorem wait_single_shot (f : FutureState) (o : Outcome)
    (hv : f.valid = true) (hr : f.ready = some o) :
    (wait f).1 = (match o with
      | Outcome.value v => WaitResult.value v
      | Outcome.failure e => WaitResult.raised e)
    ∧ (wait f).2.valid = false
    ∧ (wait (wait f).2).1 = WaitResult.futureError := by
  cases o <;> simp [wait, hv, hr]

/-- Witness for C7: a ready future holding a failure re-raises it once, then
fails with a future error. -/
theorem wait_single_shot_witness :
    (wait ⟨some (Outcome.failure "boom"), true⟩).1 = WaitResult.raised "boom"
    ∧ (wait ⟨some (Outcome.failure "boom"), true⟩).2.valid = false
    ∧ (wait (wait ⟨some (Outcome.failure "boom"), true⟩).2).1
        = WaitResult.futureError :=
  wait_single_shot ⟨some (Outcome.failure "boom"), true⟩
    (Outcome.failure "boom") rfl rfl

/-- Claim C8: a failing task is contained — invoking a held task whose
callable raises a failure is a legal step, after which the failure is
stored in the task's channel, the worker is back at the top of its loop
(not terminated), the queue and hence every task queued after the failing
one is untouched, and wait on the corresponding handle re-raises the
stored failure. -/
theorem task_failure_contained (beh : Beh) (s : SystemState) (w t : Nat)
    (e : String) (hw : s.workers_[w]? = some ⟨some t, false⟩)
    (hf : (beh t s.counter).2 = Outcome.failure e) :
    Step beh s (execStep beh s w t)
    ∧ (execStep beh s w t).channels t = some (Outcome.failure e)
    ∧ (execStep beh s w t).workers_[w]? = some ⟨none, false⟩
    ∧ (execStep beh s w t).tasks_ = s.tasks_
    ∧ (wait ⟨(execStep beh s w t).channels t, true⟩).1
        = WaitResult.raised e := by
  have hch : (execStep beh s w t).channels t = some (Outcome.failure e) := by
    show (if t = t then some (beh t s.counter).2 else s.channels t)
        = some (Outcome.failure e)
    rw [if_pos rfl, hf]
  obtain ⟨hwlt, -⟩ := List.getElem?_eq_some.mp hw
  refine ⟨Step.exec hw, hch, ?_, rfl, ?_⟩
  · show (s.workers_.set w ⟨none, false⟩)[w]? = some ⟨none, false⟩
    exact List.getElem?_set_self hwlt
  · rw [hch]
    rfl

/-- Witness for C8: in a one-worker pool whose worker holds the failing
task `0`, the failure "boom" is stored, the worker survives, and wait
re-raises it. -/
theorem task_failure_contained_witness :
    Step failBeh sFail (execStep failBeh sFail 0 0)
    ∧ (execStep failBeh sFail 0 0).channels 0
        = some (Outcome.failure "boom")
    ∧ (execStep failBeh sFail 0 0).workers_[0]? = some ⟨none, false⟩
    ∧ (execStep failBeh sFail 0 0).tasks_ = sFail.tasks_
    ∧ (wait ⟨(execStep failBeh sFail 0 0).channels 0, true⟩).1
        = WaitResult.raised "boom" :=
  task_failure_contained failBeh sFail 0 0 "boom" rfl rfl

/-- Claim C9 (code evidence): every shared-state access in `enqueue` and in
a worker loop iteration is performed with `mutex_` held, but the destructor
writes the stopping flag with no lock held — so the claim that every access
to the queue and the stopping flag happens under the single mutex fails at
`ThreadPool::~ThreadPool`. -/
theorem destructor_writes_stop_unlocked :
    Access.mk SharedVar.stopFlag true false ∈ destructorAccesses
    ∧ enqueueAccesses.all Access.underLock = true
    ∧ workerLoopAccesses.all Access.underLock = true := by
  decide

/-- Claim C10: when a worker wakes (spuriously or otherwise) and finds the
queue empty with the stopping flag unset, the locked section pops nothing,
the local task stays empty, and the invocation guard performs zero calls —
an empty `std::function` is never invoked — after which the worker loops
back to waiting. -/
theorem empty_wake_skips_invocation :
    workerIter false [] = IterResult.next none []
    ∧ invocationsOf none = 0 :=
  ⟨rfl, rfl⟩

end ThreadPool
